import Mathlib

/-!
# Verification of the Evelyn Reminder dose-scheduling engine

Shallow embedding of the scheduling / drift-correction engine of
`src/evelyn_reminder/api/__init__.py`.

Modelling conventions:

* Instants and durations are integers counting microseconds (the resolution of
  Python `datetime` / `timedelta`).  All instants are UTC; the timezone-awareness
  bookkeeping needed for the `assert ... tzinfo == utc` statements is modelled
  separately by the `DtTz`/`DoseTz` layer at the end of the definition section.
* `timedelta / int` in CPython divides the microsecond count rounding half to
  even (`divide_nearest` in `Modules/_datetimemodule.c`); `divHalfEven` models
  that exactly.  In particular `Reminder.period = timedelta(days=1) / cycles_per_day`
  is the *rounded* number of microseconds.
* The `while True:` loops of `Dose._get_cycle`, `Dose.get_taken` and
  `Mixin._dose_last` are partial functions of their inputs; they are modelled
  with an explicit fuel parameter returning `Option`, and the termination
  results prove that the supplied fuel bound is always sufficient whenever the
  period is positive.
* Only the columns of the `reminder` table that the scheduling engine reads are
  carried in `Reminder`; display-only columns (messages, colors, tts...) do not
  influence any claim.
-/

namespace Evelyn

/-- Number of microseconds in one day (`timedelta(days=1)`). -/
def usPerDay : ℤ := 86400000000

/-- CPython's `divide_nearest`: integer division rounding half to even, as used
by `timedelta.__truediv__` / `timedelta.__floordiv__`-free true division with an
`int` divisor.  Faithful for positive divisors (the only use here). -/
def divHalfEven (a b : ℤ) : ℤ :=
  if 2 * (a % b) < b then a / b
  else if b < 2 * (a % b) then a / b + 1
  else if (a / b) % 2 = 0 then a / b else a / b + 1

/-- The scheduling-relevant columns of the `reminder` table.  `bed_time_utc`
is the anchor time-of-day as microseconds since midnight UTC; `correction_amount`
and `ping_interval` are durations in microseconds; `last_ping_utc` and
`mute_until_utc` are instants in microseconds. -/
structure Reminder where
  cycles_per_day : ℤ
  correction_amount : ℤ
  ping_interval : ℤ
  bed_time_utc : ℤ
  last_ping_utc : ℤ
  mute_until_utc : ℤ
  show_alternating : Bool
  alternating_flag : Bool
deriving DecidableEq, Repr

/-- `Reminder.period`: `datetime.timedelta(days=1) / self.cycles_per_day`
(microseconds, rounded half to even by CPython's timedelta division). -/
def Reminder.period (r : Reminder) : ℤ := divHalfEven usPerDay r.cycles_per_day

/-- The tolerance `reminder.period / 2` used by `Dose._get_cycle`: again a
CPython timedelta-by-int division, rounding half to even. -/
def Reminder.half_period (r : Reminder) : ℤ := divHalfEven r.period 2

/-- `datetime.datetime.combine(timestamp.date(), reminder.bed_time)`: the
anchor instant on the calendar day of `t`.  `t / usPerDay` is floor division
(`Int.ediv` floors for the positive divisor), matching Python's `date()`. -/
def combineBed (r : Reminder) (t : ℤ) : ℤ :=
  (t / usPerDay) * usPerDay + r.bed_time_utc

/-- The `while True:` loop of `Dose._get_cycle`, with explicit fuel.
State: current `cycle` index and candidate `closest_center` `c`.  Returns the
first candidate within `period / 2` of `t`, stepping one period toward `t`
otherwise and adjusting the cycle index modulo `cycles_per_day`. -/
def getCycleAux (r : Reminder) (t : ℤ) : ℕ → ℤ → ℤ → Option (ℤ × ℤ)
  | 0, _, _ => none
  | fuel + 1, cycle, c =>
    if |t - c| ≤ r.half_period then some (cycle, c)
    else if c < t then
      getCycleAux r t fuel ((cycle + 1) % r.cycles_per_day) (c + r.period)
    else
      getCycleAux r t fuel ((cycle + r.cycles_per_day - 1) % r.cycles_per_day) (c - r.period)

/-- Fuel sufficient for `getCycleAux` started at candidate `c` (proved
sufficient whenever `1 ≤ r.period`). -/
def getCycleFuel (r : Reminder) (t c : ℤ) : ℕ :=
  (t - c).natAbs / r.period.toNat + 2

/-- `Dose._get_cycle(reminder, timestamp)`: start from the anchor instant on
`t`'s calendar day with cycle index `cycles_per_day - 1` and run the stepping
search. -/
def get_cycle (r : Reminder) (t : ℤ) : Option (ℤ × ℤ) :=
  getCycleAux r t (getCycleFuel r t (combineBed r t)) (r.cycles_per_day - 1) (combineBed r t)

/-- The transient `Dose` value: `timestamp`/`center` as passed to `__init__`,
`late = timestamp - center`, and `cycle`/`closest_center` re-derived from
`center` by `_get_cycle`. -/
structure Dose where
  reminder : Reminder
  timestamp : ℤ
  center : ℤ
  late : ℤ
  cycle : ℤ
  closest_center : ℤ
deriving DecidableEq, Repr

/-- `Dose.__init__`: `none` models non-termination of the `_get_cycle` call
(possible only for non-positive periods). -/
def mkDose (r : Reminder) (timestamp center : ℤ) : Option Dose :=
  (get_cycle r center).map fun x =>
    { reminder := r
      timestamp := timestamp
      center := center
      late := timestamp - center
      cycle := x.1
      closest_center := x.2 }

/-- `Dose.get_target(self, now)`: next projected dose with clamped drift
correction and the `max(next_time, min(desired_next_time, now))` floor. -/
def Dose.get_target (d : Dose) (now : ℤ) : Option Dose :=
  let r := d.reminder
  let next_center := d.closest_center + r.period
  let desired_next_time := d.timestamp + r.period
  let correction := max (min (d.closest_center - d.timestamp) r.correction_amount) (-r.correction_amount)
  let next_time := max (desired_next_time + correction) (min desired_next_time now)
  mkDose r next_time next_center

/-- The first loop of `Dose.get_taken` (entered when `next_center > now`):
`while smaller_center > now + correction_amount: next_center = smaller_center`
where `smaller_center = next_center - period`. -/
def takenDownAux (r : Reminder) (now : ℤ) : ℕ → ℤ → Option ℤ
  | 0, _ => none
  | fuel + 1, next_center =>
    if now + r.correction_amount < next_center - r.period then
      takenDownAux r now fuel (next_center - r.period)
    else some next_center

/-- The second loop of `Dose.get_taken` (entered when `next_center ≤ now`):
`while bigger_center < now - correction_amount: next_center = bigger_center`
where `bigger_center = next_center + period`. -/
def takenUpAux (r : Reminder) (now : ℤ) : ℕ → ℤ → Option ℤ
  | 0, _ => none
  | fuel + 1, next_center =>
    if next_center + r.period < now - r.correction_amount then
      takenUpAux r now fuel (next_center + r.period)
    else some next_center

/-- Fuel for `takenDownAux` (sufficient whenever `1 ≤ r.period`). -/
def takenDownFuel (r : Reminder) (now next_center : ℤ) : ℕ :=
  (next_center - (now + r.correction_amount)).toNat / r.period.toNat + 2

/-- Fuel for `takenUpAux` (sufficient whenever `1 ≤ r.period`). -/
def takenUpFuel (r : Reminder) (now next_center : ℤ) : ℕ :=
  ((now - r.correction_amount) - next_center).toNat / r.period.toNat + 2

/-- `Dose.get_taken(self, now)`: resolve a "done now" report at `now` to a
center at most one correction window from `now`, then build the new `Dose`. -/
def Dose.get_taken (d : Dose) (now : ℤ) : Option Dose :=
  let r := d.reminder
  let next_center := d.closest_center + r.period
  let resolved :=
    if now < next_center then
      takenDownAux r now (takenDownFuel r now next_center) next_center
    else
      takenUpAux r now (takenUpFuel r now next_center) next_center
  resolved.bind fun c => mkDose r now c

/-- First bootstrap loop of `Mixin._dose_last`:
`while timestamp < now: timestamp += reminder.period`. -/
def bootUpAux (r : Reminder) (now : ℤ) : ℕ → ℤ → Option ℤ
  | 0, _ => none
  | fuel + 1, ts =>
    if ts < now then bootUpAux r now fuel (ts + r.period) else some ts

/-- Second bootstrap loop of `Mixin._dose_last`:
`while timestamp >= now: timestamp -= reminder.period`. -/
def bootDownAux (r : Reminder) (now : ℤ) : ℕ → ℤ → Option ℤ
  | 0, _ => none
  | fuel + 1, ts =>
    if now ≤ ts then bootDownAux r now fuel (ts - r.period) else some ts

/-- Fuel for `bootUpAux` (sufficient whenever `1 ≤ r.period`). -/
def bootUpFuel (r : Reminder) (now ts : ℤ) : ℕ :=
  (now - ts).toNat / r.period.toNat + 2

/-- Fuel for `bootDownAux` (sufficient whenever `1 ≤ r.period`). -/
def bootDownFuel (r : Reminder) (now ts : ℤ) : ℕ :=
  (ts - now).toNat / r.period.toNat + 2

/-- `Mixin._dose_last(session, reminder, now)`.  `tail` is the result of
`_get_history_tail`: the most recent `(timestamp, center)` records, newest
first.  With history, the newest record becomes the last dose; without history
a bootstrap dose is synthesized on the anchor grid of `now`'s calendar day. -/
def dose_last (r : Reminder) (tail : List (ℤ × ℤ)) (now : ℤ) : Option Dose :=
  match tail with
  | h :: _ => mkDose r h.1 h.2
  | [] =>
    let ts0 := combineBed r now
    (bootUpAux r now (bootUpFuel r now ts0) ts0).bind fun ts1 =>
      (bootDownAux r now (bootDownFuel r now ts1) ts1).bind fun ts =>
        mkDose r ts ts

/-- `Mixin._dose_tail(session, reminder)`: reverse the newest-first tail to
oldest-first, build the Doses, and pair each dose after the first with the gap
to its predecessor (`zip(tail[1:], periods)`). -/
def dose_tail (r : Reminder) (tail : List (ℤ × ℤ)) : Option (List (Dose × ℤ)) :=
  (tail.reverse.mapM fun h => mkDose r h.1 h.2).map fun ds =>
    (ds.zip ds.tail).map fun ab => (ab.2, ab.2.timestamp - ab.1.timestamp)

/-- The sequence of gap durations rendered by `PingResponse.from_reminder`:
`', '.join(cls._natural_delta(period) for dose, period in reversed(dose_tail))`.
Modelled at the level of the underlying `timedelta` sequence (`_natural_delta`
only formats each duration for display and is injectively irrelevant to the
order/content claim). -/
def ping_gaps (r : Reminder) (tail : List (ℤ × ℤ)) : Option (List ℤ) :=
  (dose_tail r tail).map fun l => l.reverse.map fun x => x.2

/-- Outcome of `HistoryResource.post` as far as the engine is concerned:
either a rejected request (`flask.abort(400, reason)`, nothing persisted) or
an accepted one appending a `History(timestamp_utc, center_utc)` row and
leaving `alternating_flag` at the given value. -/
inductive PostResult where
  | rejected (reason : String)
  | accepted (timestamp_utc : ℤ) (center_utc : ℤ) (alternating_flag : Bool)
deriving DecidableEq, Repr

/-- The body of `HistoryResource.post` after the report instant `time_` has
been fixed: load the last dose (bootstrap uses `time_` as "now"), reject if
`time_` precedes its timestamp, otherwise resolve with `get_taken` and record
the new row, toggling `alternating_flag` when alternating display is on. -/
def historyPostGo (r : Reminder) (tail : List (ℤ × ℤ)) (time_ : ℤ) : Option PostResult :=
  (dose_last r tail time_).bind fun dose_last_ =>
    if time_ < dose_last_.timestamp then
      some (.rejected "Time cannot be before previously recorded time!")
    else
      (dose_last_.get_taken time_).map fun dose_taken =>
        .accepted dose_taken.timestamp dose_taken.center
          (if r.show_alternating then !r.alternating_flag else r.alternating_flag)

/-- `HistoryResource.post`: `time_utc` is the optional explicit report instant
(already parsed); `none` means it was not supplied and defaults to `now`.  An
explicit instant in the future is rejected up front. -/
def history_post (r : Reminder) (tail : List (ℤ × ℤ)) (now : ℤ) (time_utc : Option ℤ) :
    Option PostResult :=
  match time_utc with
  | none => historyPostGo r tail now
  | some t => if now < t then some (.rejected "Time cannot be in the future!") else historyPostGo r tail t

/-! ## Timezone-awareness layer

Python datetimes carry a `tzinfo`; the engine asserts `tzinfo == timezone.utc`
in `Dose.__init__` and `Dose.get_target`.  `DtTz` pairs the microsecond value
with its `tzinfo` kind; arithmetic with a `timedelta` preserves the `tzinfo`,
and `datetime.combine(date, reminder.bed_time)` yields a UTC-aware instant
because the `Reminder.bed_time` property attaches `timezone.utc`. -/

/-- The `tzinfo` of a Python datetime, as far as the engine's assertions
compare it: exactly `timezone.utc`, absent (naive), or anything else. -/
inductive Tzinfo where
  | utc
  | naive
  | other
deriving DecidableEq, Repr

/-- A Python datetime: microsecond value plus its `tzinfo`. -/
structure DtTz where
  val : ℤ
  tz : Tzinfo
deriving DecidableEq, Repr

/-- A `Dose` with timezone-tracked datetime fields. -/
structure DoseTz where
  reminder : Reminder
  timestamp : DtTz
  center : DtTz
  late : ℤ
  cycle : ℤ
  closest_center : DtTz
deriving DecidableEq, Repr

/-- `_get_cycle` on a timezone-tracked instant.  The candidate starts from
`datetime.combine(date, reminder.bed_time)`, which is UTC-aware, and moves by
`± period` (a timedelta), which preserves the `tzinfo`; hence the returned
`closest_center` is UTC-aware. -/
def get_cycle_tz (r : Reminder) (t : DtTz) : Option (ℤ × DtTz) :=
  (get_cycle r t.val).map fun x => (x.1, ⟨x.2, Tzinfo.utc⟩)

/-- `Dose.__init__` with its two assertions
`assert timestamp.tzinfo == datetime.timezone.utc` and
`assert center.tzinfo == datetime.timezone.utc`; a failed assertion (the
`AssertionError` branch) is modelled as `none`. -/
def mkDoseTz (r : Reminder) (timestamp center : DtTz) : Option DoseTz :=
  if timestamp.tz = Tzinfo.utc ∧ center.tz = Tzinfo.utc then
    (get_cycle_tz r center).map fun x =>
      { reminder := r
        timestamp := timestamp
        center := center
        late := timestamp.val - center.val
        cycle := x.1
        closest_center := x.2 }
  else none

/-- `Dose.get_target` with timezone tracking and its two assertions
`assert desired_next_time.tzinfo == utc` and `assert now.tzinfo == utc`.
`min`/`max` of Python datetimes return one of their (tz-carrying) arguments. -/
def get_target_tz (d : DoseTz) (now : DtTz) : Option DoseTz :=
  let r := d.reminder
  let next_center : DtTz := ⟨d.closest_center.val + r.period, d.closest_center.tz⟩
  let desired_next_time : DtTz := ⟨d.timestamp.val + r.period, d.timestamp.tz⟩
  let correction := max (min (d.closest_center.val - d.timestamp.val) r.correction_amount) (-r.correction_amount)
  if desired_next_time.tz = Tzinfo.utc ∧ now.tz = Tzinfo.utc then
    let minimum_time : DtTz := if desired_next_time.val ≤ now.val then desired_next_time else now
    let next_time : DtTz :=
      if desired_next_time.val + correction < minimum_time.val then minimum_time
      else ⟨desired_next_time.val + correction, desired_next_time.tz⟩
    mkDoseTz r next_time next_center
  else none

/-- `Dose.get_taken` with timezone tracking: the resolved center steps from
`closest_center + period` by whole periods, preserving its `tzinfo`. -/
def get_taken_tz (d : DoseTz) (now : DtTz) : Option DoseTz :=
  let r := d.reminder
  let next_center := d.closest_center.val + r.period
  let resolved :=
    if now.val < next_center then
      takenDownAux r now.val (takenDownFuel r now.val next_center) next_center
    else
      takenUpAux r now.val (takenUpFuel r now.val next_center) next_center
  resolved.bind fun c => mkDoseTz r now ⟨c, d.closest_center.tz⟩

/-- The bootstrap branch of `Mixin._dose_last` with timezone tracking: the
synthesized timestamp starts from the UTC-aware
`datetime.combine(now.date(), reminder.bed_time)` and steps by whole periods. -/
def dose_last_boot_tz (r : Reminder) (now : DtTz) : Option DoseTz :=
  let ts0 := combineBed r now.val
  (bootUpAux r now.val (bootUpFuel r now.val ts0) ts0).bind fun ts1 =>
    (bootDownAux r now.val (bootDownFuel r now.val ts1) ts1).bind fun ts =>
      mkDoseTz r ⟨ts, Tzinfo.utc⟩ ⟨ts, Tzinfo.utc⟩

/-- `Mixin._now()`: `datetime.datetime.utcnow().replace(tzinfo=datetime.timezone.utc)`
is always UTC-aware. -/
def now_tz (value : ℤ) : DtTz := ⟨value, Tzinfo.utc⟩

/-- All datetime fields of a `DoseTz` are UTC-aware. -/
def DoseTz.tzOk (d : DoseTz) : Prop :=
  d.timestamp.tz = Tzinfo.utc ∧ d.center.tz = Tzinfo.utc ∧ d.closest_center.tz = Tzinfo.utc

instance (d : DoseTz) : Decidable d.tzOk := by unfold DoseTz.tzOk; infer_instance

/-! ## Arithmetic facts about the rounding division -/

/-- Rounding half to even lands within half a (positive) divisor of the exact
quotient: `|2a - 2·b·divHalfEven a b| ≤ b`. -/
theorem divHalfEven_close (a b : ℤ) (hb : 0 < b) :
    |2 * a - 2 * (b * divHalfEven a b)| ≤ b := by
  have hmod0 : 0 ≤ a % b := Int.emod_nonneg a (ne_of_gt hb)
  have hmod1 : a % b < b := Int.emod_lt_of_pos a hb
  have hdm : b * (a / b) + a % b = a := Int.ediv_add_emod a b
  have hexp : b * (a / b + 1) = b * (a / b) + b := by ring
  unfold divHalfEven
  split_ifs with h1 h2 h3
  · rw [abs_le]; constructor <;> linarith
  · rw [hexp, abs_le]; constructor <;> linarith
  · rw [abs_le]; constructor <;> linarith
  · rw [hexp, abs_le]; constructor <;> linarith

/-- An exact division is not rounded. -/
theorem divHalfEven_exact (a b : ℤ) (hb : 0 < b) (h : a % b = 0) :
    divHalfEven a b = a / b := by
  unfold divHalfEven
  rw [h]
  simp [hb]

/-- `period / 2` sandwich: `period ≤ 2·half_period + 1` and
`2·half_period ≤ period + 1`. -/
theorem half_period_bounds (r : Reminder) :
    r.period ≤ 2 * r.half_period + 1 ∧ 2 * r.half_period ≤ r.period + 1 := by
  have h := divHalfEven_close r.period 2 (by norm_num)
  rw [abs_le] at h
  unfold Reminder.half_period
  omega

/-- A positive period whenever `1 ≤ cycles_per_day` stays below twice the
microseconds of a day (in particular for every realistic cadence). -/
theorem period_pos (r : Reminder) (h1 : 1 ≤ r.cycles_per_day)
    (h2 : r.cycles_per_day ≤ 172799999999) : 1 ≤ r.period := by
  have h := divHalfEven_close usPerDay r.cycles_per_day (by omega)
  rw [abs_le] at h
  have hday : usPerDay = 86400000000 := rfl
  unfold Reminder.period
  by_contra hP
  push_neg at hP
  have hP0 : divHalfEven usPerDay r.cycles_per_day ≤ 0 := by omega
  have hnp : r.cycles_per_day * divHalfEven usPerDay r.cycles_per_day ≤ r.cycles_per_day * 0 :=
    mul_le_mul_of_nonneg_left hP0 (by omega)
  rw [mul_zero] at hnp
  linarith [h.1, h.2]

/-! ## The cycle-search loop: invariants and termination -/

/-- Invariant of `getCycleAux`: on success the returned center is within
`period / 2` of `t`; it differs from the starting candidate by the cycle-index
movement times the period, up to multiples of `cycles_per_day * period`; and
the returned cycle index stays in `[0, cycles_per_day)` when it started there. -/
theorem getCycleAux_spec (r : Reminder) (t : ℤ) :
    ∀ fuel cycle c cy' cc, getCycleAux r t fuel cycle c = some (cy', cc) →
      |t - cc| ≤ r.half_period ∧
      (∃ j : ℤ, cc - c = (cy' - cycle) * r.period + j * (r.cycles_per_day * r.period)) ∧
      (0 < r.cycles_per_day → 0 ≤ cycle → cycle < r.cycles_per_day →
        0 ≤ cy' ∧ cy' < r.cycles_per_day) := by
  intro fuel
  induction fuel with
  | zero => intro cycle c cy' cc h; simp [getCycleAux] at h
  | succ f ih =>
    intro cycle c cy' cc h
    rw [getCycleAux] at h
    split_ifs at h with h1 h2
    · obtain ⟨he1, he2⟩ : cycle = cy' ∧ c = cc := by simpa using h
      subst he1; subst he2
      exact ⟨h1, ⟨0, by ring⟩, fun _ hb hc => ⟨hb, hc⟩⟩
    · obtain ⟨ha, ⟨j, hj⟩, hrange⟩ := ih _ _ _ _ h
      have hk : (cycle + 1) % r.cycles_per_day =
          cycle + 1 - r.cycles_per_day * ((cycle + 1) / r.cycles_per_day) := by
        rw [Int.emod_def]
      rw [hk] at hj
      refine ⟨ha, ⟨j + (cycle + 1) / r.cycles_per_day, by linear_combination hj⟩, ?_⟩
      intro hn hb hc
      exact hrange hn (Int.emod_nonneg _ (ne_of_gt hn)) (Int.emod_lt_of_pos _ hn)
    · obtain ⟨ha, ⟨j, hj⟩, hrange⟩ := ih _ _ _ _ h
      have hk : (cycle + r.cycles_per_day - 1) % r.cycles_per_day =
          cycle + r.cycles_per_day - 1 -
            r.cycles_per_day * ((cycle + r.cycles_per_day - 1) / r.cycles_per_day) := by
        rw [Int.emod_def]
      rw [hk] at hj
      refine ⟨ha, ⟨j + (cycle + r.cycles_per_day - 1) / r.cycles_per_day - 1,
        by linear_combination hj⟩, ?_⟩
      intro hn hb hc
      exact hrange hn (Int.emod_nonneg _ (ne_of_gt hn)) (Int.emod_lt_of_pos _ hn)

/-- Termination of the cycle search: with a positive period the fuel
`|t - c| / period + 2` always suffices. -/
theorem getCycleAux_sufficient (r : Reminder) (t : ℤ) (hp : 1 ≤ r.period) :
    ∀ fuel cycle c, (t - c).natAbs / r.period.toNat + 2 ≤ fuel →
      ∃ out, getCycleAux r t fuel cycle c = some out := by
  intro fuel
  induction fuel with
  | zero => intro _ _ h; exact absurd h (Nat.not_succ_le_zero _)
  | succ f ih =>
    intro cycle c hfuel
    have hf1 : 1 ≤ f := by
      have h2 := le_trans (Nat.le_add_left 2 _) hfuel
      omega
    rw [getCycleAux]
    split_ifs with h1 h2
    · exact ⟨_, rfl⟩
    · -- stepping up: c < t
      rw [Int.abs_eq_natAbs, not_le] at h1
      have hhp := half_period_bounds r
      by_cases hd : r.period ≤ t - c
      · have hD : (t - (c + r.period)).natAbs + r.period.toNat = (t - c).natAbs := by omega
        have hdiv := Nat.add_div_right (t - (c + r.period)).natAbs
          (show 0 < r.period.toNat by omega)
        rw [hD] at hdiv
        exact ih _ _ (by omega)
      · -- one more step lands within half a period
        push_neg at hd
        obtain ⟨f', rfl⟩ : ∃ f', f = f' + 1 := ⟨f - 1, by omega⟩
        rw [getCycleAux, if_pos]
        · exact ⟨_, rfl⟩
        · rw [Int.abs_eq_natAbs]
          omega
    · -- stepping down: t < c (t = c is excluded since |t - c| > half_period ≥ 0)
      rw [Int.abs_eq_natAbs, not_le] at h1
      push_neg at h2
      have hhp := half_period_bounds r
      by_cases hd : r.period ≤ c - t
      · have hD : (t - (c - r.period)).natAbs + r.period.toNat = (t - c).natAbs := by omega
        have hdiv := Nat.add_div_right (t - (c - r.period)).natAbs
          (show 0 < r.period.toNat by omega)
        rw [hD] at hdiv
        exact ih _ _ (by omega)
      · push_neg at hd
        obtain ⟨f', rfl⟩ : ∃ f', f = f' + 1 := ⟨f - 1, by omega⟩
        rw [getCycleAux, if_pos]
        · exact ⟨_, rfl⟩
        · rw [Int.abs_eq_natAbs]
          omega

/-- `_get_cycle` terminates whenever the period is positive. -/
theorem get_cycle_isSome (r : Reminder) (t : ℤ) (hp : 1 ≤ r.period) :
    ∃ out, get_cycle r t = some out :=
  getCycleAux_sufficient r t hp _ _ _ (Nat.le_refl _)

/-- If the start candidate differs from `t` by a whole number of periods and
the period is at least 2, the cycle search returns `t` itself. -/
theorem getCycleAux_fixed (r : Reminder) (t : ℤ) (hp2 : 2 ≤ r.period) :
    ∀ fuel cycle c, (∃ m : ℤ, t - c = m * r.period) →
      (t - c).natAbs / r.period.toNat + 2 ≤ fuel →
      ∃ cy', getCycleAux r t fuel cycle c = some (cy', t) := by
  intro fuel
  induction fuel with
  | zero => intro _ _ _ h; exact absurd h (Nat.not_succ_le_zero _)
  | succ f ih =>
    intro cycle c hstep hfuel
    obtain ⟨m, hm⟩ := hstep
    rw [getCycleAux]
    have hhp := half_period_bounds r
    split_ifs with h1 h2
    · -- |t - c| ≤ half_period < period forces m = 0, i.e. c = t
      refine ⟨cycle, ?_⟩
      have hm0 : m = 0 := by
        by_contra hm0
        have habs : |t - c| = |m| * r.period := by
          rw [hm, abs_mul, abs_of_pos (show (0:ℤ) < r.period by omega)]
        have hPle : r.period ≤ |m| * r.period :=
          le_mul_of_one_le_left (by omega) (Int.one_le_abs hm0)
        rw [habs] at h1
        linarith [hhp.1, hhp.2, hp2]
      rw [hm0, zero_mul] at hm
      have hct : c = t := by omega
      rw [hct]
    · -- c < t, so m ≥ 1 and the distance shrinks by exactly one period
      have hm1 : 1 ≤ m := by
        by_contra hm1
        push_neg at hm1
        have hmp : m * r.period ≤ 0 * r.period :=
          mul_le_mul_of_nonneg_right (by omega) (by omega)
        rw [zero_mul] at hmp
        linarith
      have hge : r.period ≤ t - c := by
        calc r.period = 1 * r.period := (one_mul _).symm
        _ ≤ m * r.period := mul_le_mul_of_nonneg_right hm1 (by omega)
        _ = t - c := hm.symm
      have hD : (t - (c + r.period)).natAbs + r.period.toNat = (t - c).natAbs := by omega
      have hdiv := Nat.add_div_right (t - (c + r.period)).natAbs
        (show 0 < r.period.toNat by omega)
      rw [hD] at hdiv
      exact ih _ _ ⟨m - 1, by linear_combination hm⟩ (by omega)
    · -- t < c, so m ≤ -1
      push_neg at h2
      have hm1 : m ≤ -1 := by
        by_contra hm1
        push_neg at hm1
        have hmp : 0 * r.period ≤ m * r.period :=
          mul_le_mul_of_nonneg_right (by omega) (by omega)
        rw [zero_mul] at hmp
        have hne : t - c ≠ 0 := by
          intro h0
          rw [h0] at h1
          simp at h1
          omega
        linarith [lt_of_le_of_ne (by linarith : (0:ℤ) ≤ t - c) (Ne.symm hne),
          h2]
      have hge : r.period ≤ c - t := by
        have hmp : m * r.period ≤ (-1) * r.period :=
          mul_le_mul_of_nonneg_right hm1 (by omega)
        linarith
      have hD : (t - (c - r.period)).natAbs + r.period.toNat = (t - c).natAbs := by omega
      have hdiv := Nat.add_div_right (t - (c - r.period)).natAbs
        (show 0 < r.period.toNat by omega)
      rw [hD] at hdiv
      exact ih _ _ ⟨m + 1, by linear_combination hm⟩ (by omega)

/-- `get_cycle` on an instant lying on the anchor grid of its own calendar day
returns that instant unchanged (period at least 2 microseconds). -/
theorem get_cycle_fixed (r : Reminder) (hp2 : 2 ≤ r.period) (t : ℤ)
    (h : ∃ m : ℤ, t - combineBed r t = m * r.period) :
    ∃ cy', get_cycle r t = some (cy', t) :=
  getCycleAux_fixed r t hp2 _ _ _ h (Nat.le_refl _)

/-! ## The `get_taken` and bootstrap loops -/

/-- Exit conditions and grid preservation of the downward `get_taken` loop. -/
theorem takenDownAux_spec (r : Reminder) (now : ℤ) :
    ∀ fuel next out, takenDownAux r now fuel next = some out →
      out - r.period ≤ now + r.correction_amount ∧
      (out = next ∨ now + r.correction_amount < out) ∧
      ∃ k : ℤ, next - out = k * r.period := by
  intro fuel
  induction fuel with
  | zero => intro next out h; simp [takenDownAux] at h
  | succ f ih =>
    intro next out h
    rw [takenDownAux] at h
    split_ifs at h with h1
    · obtain ⟨he, hd, k, hk⟩ := ih _ _ h
      refine ⟨he, ?_, ⟨k + 1, by linear_combination hk⟩⟩
      rcases hd with hd | hd
      · right; rw [hd]; exact h1
      · right; exact hd
    · obtain rfl : next = out := by simpa using h
      exact ⟨by omega, Or.inl rfl, ⟨0, by ring⟩⟩

/-- Exit conditions and grid preservation of the upward `get_taken` loop. -/
theorem takenUpAux_spec (r : Reminder) (now : ℤ) :
    ∀ fuel next out, takenUpAux r now fuel next = some out →
      now - r.correction_amount ≤ out + r.period ∧
      (out = next ∨ out < now - r.correction_amount) ∧
      ∃ k : ℤ, out - next = k * r.period := by
  intro fuel
  induction fuel with
  | zero => intro next out h; simp [takenUpAux] at h
  | succ f ih =>
    intro next out h
    rw [takenUpAux] at h
    split_ifs at h with h1
    · obtain ⟨he, hd, k, hk⟩ := ih _ _ h
      refine ⟨he, ?_, ⟨k + 1, by linear_combination hk⟩⟩
      rcases hd with hd | hd
      · right; rw [hd]; exact h1
      · right; exact hd
    · obtain rfl : next = out := by simpa using h
      exact ⟨by omega, Or.inl rfl, ⟨0, by ring⟩⟩

/-- Termination of the downward `get_taken` loop under `takenDownFuel`. -/
theorem takenDownAux_sufficient (r : Reminder) (now : ℤ) (hp : 1 ≤ r.period) :
    ∀ fuel next, (next - (now + r.correction_amount)).toNat / r.period.toNat + 2 ≤ fuel →
      ∃ out, takenDownAux r now fuel next = some out := by
  intro fuel
  induction fuel with
  | zero => intro _ h; exact absurd h (Nat.not_succ_le_zero _)
  | succ f ih =>
    intro next hfuel
    rw [takenDownAux]
    split_ifs with h1
    · have hD : (next - r.period - (now + r.correction_amount)).toNat + r.period.toNat =
          (next - (now + r.correction_amount)).toNat := by omega
      have hdiv := Nat.add_div_right (next - r.period - (now + r.correction_amount)).toNat
        (show 0 < r.period.toNat by omega)
      rw [hD] at hdiv
      exact ih _ (by omega)
    · exact ⟨_, rfl⟩

/-- Termination of the upward `get_taken` loop under `takenUpFuel`. -/
theorem takenUpAux_sufficient (r : Reminder) (now : ℤ) (hp : 1 ≤ r.period) :
    ∀ fuel next, ((now - r.correction_amount) - next).toNat / r.period.toNat + 2 ≤ fuel →
      ∃ out, takenUpAux r now fuel next = some out := by
  intro fuel
  induction fuel with
  | zero => intro _ h; exact absurd h (Nat.not_succ_le_zero _)
  | succ f ih =>
    intro next hfuel
    rw [takenUpAux]
    split_ifs with h1
    · have hD : ((now - r.correction_amount) - (next + r.period)).toNat + r.period.toNat =
          ((now - r.correction_amount) - next).toNat := by omega
      have hdiv := Nat.add_div_right ((now - r.correction_amount) - (next + r.period)).toNat
        (show 0 < r.period.toNat by omega)
      rw [hD] at hdiv
      exact ih _ (by omega)
    · exact ⟨_, rfl⟩

/-- Exit conditions and grid preservation of the first bootstrap loop: the
result is never before `now`. -/
theorem bootUpAux_spec (r : Reminder) (now : ℤ) :
    ∀ fuel ts out, bootUpAux r now fuel ts = some out →
      now ≤ out ∧ ∃ k : ℤ, out - ts = k * r.period := by
  intro fuel
  induction fuel with
  | zero => intro ts out h; simp [bootUpAux] at h
  | succ f ih =>
    intro ts out h
    rw [bootUpAux] at h
    split_ifs at h with h1
    · obtain ⟨he, k, hk⟩ := ih _ _ h
      exact ⟨he, ⟨k + 1, by linear_combination hk⟩⟩
    · obtain rfl : ts = out := by simpa using h
      exact ⟨by omega, ⟨0, by ring⟩⟩

/-- Exit conditions and grid preservation of the second bootstrap loop: the
result is strictly before `now`, and within one period below it unless the
loop never ran. -/
theorem bootDownAux_spec (r : Reminder) (now : ℤ) :
    ∀ fuel ts out, bootDownAux r now fuel ts = some out →
      out < now ∧ (∃ k : ℤ, ts - out = k * r.period) ∧
        (out = ts ∨ now - r.period ≤ out) := by
  intro fuel
  induction fuel with
  | zero => intro ts out h; simp [bootDownAux] at h
  | succ f ih =>
    intro ts out h
    rw [bootDownAux] at h
    split_ifs at h with h1
    · obtain ⟨he, ⟨k, hk⟩, hd⟩ := ih _ _ h
      refine ⟨he, ⟨k + 1, by linear_combination hk⟩, ?_⟩
      rcases hd with hd | hd
      · right; rw [hd]; omega
      · right; exact hd
    · obtain rfl : ts = out := by simpa using h
      exact ⟨by omega, ⟨0, by ring⟩, Or.inl rfl⟩

/-- Termination of the first bootstrap loop under `bootUpFuel`. -/
theorem bootUpAux_sufficient (r : Reminder) (now : ℤ) (hp : 1 ≤ r.period) :
    ∀ fuel ts, (now - ts).toNat / r.period.toNat + 2 ≤ fuel →
      ∃ out, bootUpAux r now fuel ts = some out := by
  intro fuel
  induction fuel with
  | zero => intro _ h; exact absurd h (Nat.not_succ_le_zero _)
  | succ f ih =>
    intro ts hfuel
    have hf1 : 1 ≤ f := by
      have h2 := le_trans (Nat.le_add_left 2 _) hfuel
      omega
    rw [bootUpAux]
    split_ifs with h1
    · by_cases hd : r.period ≤ now - ts
      · have hD : (now - (ts + r.period)).toNat + r.period.toNat = (now - ts).toNat := by omega
        have hdiv := Nat.add_div_right (now - (ts + r.period)).toNat
          (show 0 < r.period.toNat by omega)
        rw [hD] at hdiv
        exact ih _ (by omega)
      · push_neg at hd
        obtain ⟨f', rfl⟩ : ∃ f', f = f' + 1 := ⟨f - 1, by omega⟩
        rw [bootUpAux, if_neg (by omega)]
        exact ⟨_, rfl⟩
    · exact ⟨_, rfl⟩

/-- Termination of the second bootstrap loop under `bootDownFuel`. -/
theorem bootDownAux_sufficient (r : Reminder) (now : ℤ) (hp : 1 ≤ r.period) :
    ∀ fuel ts, (ts - now).toNat / r.period.toNat + 2 ≤ fuel →
      ∃ out, bootDownAux r now fuel ts = some out := by
  intro fuel
  induction fuel with
  | zero => intro _ h; exact absurd h (Nat.not_succ_le_zero _)
  | succ f ih =>
    intro ts hfuel
    have hf1 : 1 ≤ f := by
      have h2 := le_trans (Nat.le_add_left 2 _) hfuel
      omega
    rw [bootDownAux]
    split_ifs with h1
    · by_cases hd : r.period ≤ ts - now
      · have hD : (ts - r.period - now).toNat + r.period.toNat = (ts - now).toNat := by omega
        have hdiv := Nat.add_div_right (ts - r.period - now).toNat
          (show 0 < r.period.toNat by omega)
        rw [hD] at hdiv
        exact ih _ (by omega)
      · push_neg at hd
        obtain ⟨f', rfl⟩ : ∃ f', f = f' + 1 := ⟨f - 1, by omega⟩
        rw [bootDownAux, if_neg (by omega)]
        exact ⟨_, rfl⟩
    · exact ⟨_, rfl⟩

/-! ## Dose construction helpers -/

/-- Field characterization of a successfully constructed `Dose`. -/
theorem mkDose_eq (r : Reminder) (ts c : ℤ) (d : Dose) (h : mkDose r ts c = some d) :
    d.reminder = r ∧ d.timestamp = ts ∧ d.center = c ∧ d.late = ts - c ∧
      get_cycle r c = some (d.cycle, d.closest_center) := by
  unfold mkDose at h
  cases hg : get_cycle r c with
  | none => rw [hg] at h; simp at h
  | some x =>
    rw [hg] at h
    simp only [Option.map_some'] at h
    obtain rfl := Option.some.inj h
    exact ⟨rfl, rfl, rfl, rfl, rfl⟩

/-- `Dose.__init__` succeeds whenever the period is positive. -/
theorem mkDose_isSome (r : Reminder) (ts c : ℤ) (hp : 1 ≤ r.period) :
    ∃ d, mkDose r ts c = some d := by
  obtain ⟨out, h⟩ := get_cycle_isSome r c hp
  exact ⟨_, by rw [mkDose, h]; rfl⟩

/-- `get_taken` succeeds whenever the period is positive, and stamps the new
dose with the report instant `now` itself (never a clamped value). -/
theorem get_taken_isSome (d : Dose) (now : ℤ) (hp : 1 ≤ d.reminder.period) :
    ∃ dT, d.get_taken now = some dT ∧ dT.timestamp = now ∧ dT.reminder = d.reminder := by
  unfold Dose.get_taken
  dsimp only
  by_cases hb : now < d.closest_center + d.reminder.period
  · rw [if_pos hb]
    obtain ⟨c, hc⟩ := takenDownAux_sufficient d.reminder now hp
      (takenDownFuel d.reminder now (d.closest_center + d.reminder.period)) _ (Nat.le_refl _)
    rw [hc]
    obtain ⟨dT, hdT⟩ := mkDose_isSome d.reminder now c hp
    obtain ⟨hr, hts, _, _, _⟩ := mkDose_eq _ _ _ _ hdT
    exact ⟨dT, by rw [Option.some_bind, hdT], hts, by rw [hr]⟩
  · rw [if_neg hb]
    obtain ⟨c, hc⟩ := takenUpAux_sufficient d.reminder now hp
      (takenUpFuel d.reminder now (d.closest_center + d.reminder.period)) _ (Nat.le_refl _)
    rw [hc]
    obtain ⟨dT, hdT⟩ := mkDose_isSome d.reminder now c hp
    obtain ⟨hr, hts, _, _, _⟩ := mkDose_eq _ _ _ _ hdT
    exact ⟨dT, by rw [Option.some_bind, hdT], hts, by rw [hr]⟩

/-- Top-level corollary of the stepping invariant for `_get_cycle`. -/
theorem get_cycle_spec (r : Reminder) (t cy cc : ℤ) (h : get_cycle r t = some (cy, cc)) :
    |t - cc| ≤ r.half_period ∧
    (∃ j : ℤ, cc - combineBed r t =
      (cy - (r.cycles_per_day - 1)) * r.period + j * (r.cycles_per_day * r.period)) ∧
    (0 < r.cycles_per_day → 0 ≤ cy ∧ cy < r.cycles_per_day) := by
  obtain ⟨h1, h2, h3⟩ := getCycleAux_spec r t _ _ _ _ _ h
  exact ⟨h1, h2, fun hn => h3 hn (by omega) (by omega)⟩

/-- Every `closest_center` produced by `_get_cycle` lies on the anchor grid of
the input's calendar day, up to whole periods. -/
theorem get_cycle_center_grid (r : Reminder) (t cy cc : ℤ)
    (h : get_cycle r t = some (cy, cc)) :
    ∃ m : ℤ, cc - combineBed r t = m * r.period := by
  obtain ⟨_, ⟨j, hj⟩, _⟩ := get_cycle_spec r t cy cc h
  exact ⟨cy - (r.cycles_per_day - 1) + j * r.cycles_per_day, by linear_combination hj⟩

/-- When the period divides the day exactly, anchor instants of any two
calendar days differ by whole days, hence whole multiples of
`cycles_per_day * period`. -/
theorem combineBed_grid (r : Reminder) (hdiv : r.cycles_per_day * r.period = usPerDay)
    (x y : ℤ) :
    ∃ m : ℤ, combineBed r x - combineBed r y = m * (r.cycles_per_day * r.period) := by
  refine ⟨x / usPerDay - y / usPerDay, ?_⟩
  unfold combineBed
  rw [← hdiv]
  ring

/-- Full characterization of the bootstrap dose of `_dose_last` when no
history exists: it is a zero-drift dose on the anchor grid of `now`'s calendar
day, within one period strictly before `now`. -/
theorem dose_last_boot_spec (r : Reminder) (now : ℤ) (hp : 1 ≤ r.period) :
    ∃ d, dose_last r [] now = some d ∧ d.reminder = r ∧ d.center = d.timestamp ∧
      d.late = 0 ∧ (∃ k : ℤ, d.timestamp = combineBed r now + k * r.period) ∧
      now - r.period ≤ d.timestamp ∧ d.timestamp < now := by
  unfold dose_last
  dsimp only
  obtain ⟨ts1, h1⟩ := bootUpAux_sufficient r now hp
    (bootUpFuel r now (combineBed r now)) _ (Nat.le_refl _)
  obtain ⟨hge1, k1, hk1⟩ := bootUpAux_spec r now _ _ _ h1
  obtain ⟨ts2, h2⟩ := bootDownAux_sufficient r now hp (bootDownFuel r now ts1) _ (Nat.le_refl _)
  obtain ⟨hlt2, ⟨k2, hk2⟩, hd2⟩ := bootDownAux_spec r now _ _ _ h2
  obtain ⟨d, hd⟩ := mkDose_isSome r ts2 ts2 hp
  obtain ⟨hr, hts, hc, hl, _⟩ := mkDose_eq _ _ _ _ hd
  refine ⟨d, ?_, hr, by rw [hc, hts], by rw [hl]; ring, ⟨k1 - k2, ?_⟩, ?_, ?_⟩
  · rw [h1, Option.some_bind, h2, Option.some_bind, hd]
  · rw [hts]
    linear_combination hk1 - hk2
  · rw [hts]
    rcases hd2 with hd2 | hd2
    · omega
    · exact hd2
  · rw [hts]; exact hlt2

/-- `_dose_last` always yields a dose when the period is positive. -/
theorem dose_last_isSome (r : Reminder) (tail : List (ℤ × ℤ)) (now : ℤ)
    (hp : 1 ≤ r.period) :
    ∃ d, dose_last r tail now = some d ∧ d.reminder = r := by
  cases tail with
  | nil =>
    obtain ⟨d, hd, hr, _⟩ := dose_last_boot_spec r now hp
    exact ⟨d, hd, hr⟩
  | cons h t =>
    obtain ⟨d, hd⟩ := mkDose_isSome r h.1 h.2 hp
    exact ⟨d, hd, (mkDose_eq _ _ _ _ hd).1⟩

/-! ## Concrete configurations and doses used as witnesses and counterexamples -/

/-- 3 cycles per day, anchor 22:00 UTC, correction limit 1h: the spec's running
example configuration. -/
def rA : Reminder := ⟨3, 3600000000, 1800000000, 79200000000, 0, 0, false, false⟩

/-- 7 cycles per day (period 12342857143 µs, rounded up from 86400000000/7),
anchor midnight, correction limit 0. -/
def r7 : Reminder := ⟨7, 0, 1800000000, 0, 0, 0, false, false⟩

/-- 1 cycle per day, anchor midnight. -/
def r1 : Reminder := ⟨1, 0, 1800000000, 0, 0, 0, false, false⟩

/-- `cycles_per_day = 2 * 86400000000`, for which
`timedelta(days=1) / cycles_per_day` rounds to exactly 0 microseconds. -/
def rBadC6 : Reminder := ⟨172800000000, 0, 1800000000, 0, 0, 0, false, false⟩

/-- The dose `mkDose rA 0 0`: timestamp and center at epoch midnight. -/
def doseA : Dose := ⟨rA, 0, 0, 0, 2, -7200000000⟩

/-- `doseA.get_target 30000000000`. -/
def doseTgtA : Dose := ⟨rA, 28800000000, 21600000000, 7200000000, 0, 21600000000⟩

/-- `doseA.get_taken 10000000000`. -/
def doseTknA : Dose := ⟨rA, 10000000000, 21600000000, -11600000000, 0, 21600000000⟩

/-- `mkDose r7 0 0`. -/
def doseCe1 : Dose := ⟨r7, 0, 0, 0, 6, 0⟩

/-- `doseCe1.get_taken 98742857144` (now = 8·period): the resolved raw center
is 7·period = 86400000001, which re-resolves to 86400000000, a full
`period + 1` microseconds before `now`. -/
def doseCe1T : Dose := ⟨r7, 98742857144, 86400000001, 12342857143, 6, 86400000000⟩

/-- The bootstrap dose `dose_last r1 [] 86400000000`. -/
def doseCe7 : Dose := ⟨r1, 0, 0, 0, 0, 0⟩

/-! ## Claims -/

/-- Claim C2: for every config with `cyclesPerDay` between 1 and 10 and every
timestamp, `_get_cycle` returns a cycle index in `[0, cyclesPerDay)` and a
closest center within `period / 2` of the input (where `period / 2` is the
code's value, i.e. the microsecond-rounded half-period). -/
theorem claim_C2 (r : Reminder) (h1 : 1 ≤ r.cycles_per_day) (h2 : r.cycles_per_day ≤ 10)
    (t : ℤ) :
    ∃ cy cc, get_cycle r t = some (cy, cc) ∧ 0 ≤ cy ∧ cy < r.cycles_per_day ∧
      |t - cc| ≤ r.half_period := by
  have hp : 1 ≤ r.period := period_pos r h1 (by omega)
  obtain ⟨⟨cy, cc⟩, h⟩ := get_cycle_isSome r t hp
  obtain ⟨ha, -, hr⟩ := get_cycle_spec r t cy cc h
  obtain ⟨hr0, hr1⟩ := hr (by omega)
  exact ⟨cy, cc, h, hr0, hr1, ha⟩

theorem claim_C2_witness :
    (1 ≤ rA.cycles_per_day ∧ rA.cycles_per_day ≤ 10) ∧
    ∃ cy cc, get_cycle rA 0 = some (cy, cc) ∧ 0 ≤ cy ∧ cy < rA.cycles_per_day ∧
      |0 - cc| ≤ rA.half_period :=
  ⟨⟨by decide, by decide⟩, claim_C2 rA (by decide) (by decide) 0⟩

/-- Claim C3: whenever `now ≥ d.timestamp + period - correctionLimit` (and the
config invariant `correctionLimit ≥ 0` holds), the projected timestamp of
`get_target` differs from the naive projection `d.timestamp + period` by at
most `correctionLimit`. -/
theorem claim_C3 (d : Dose) (now : ℤ) (hc : 0 ≤ d.reminder.correction_amount)
    (hnow : d.timestamp + d.reminder.period - d.reminder.correction_amount ≤ now)
    (tgt : Dose) (h : d.get_target now = some tgt) :
    |tgt.timestamp - (d.timestamp + d.reminder.period)| ≤ d.reminder.correction_amount := by
  unfold Dose.get_target at h
  dsimp only at h
  obtain ⟨-, hts, -, -, -⟩ := mkDose_eq _ _ _ _ h
  rw [hts, abs_le]
  constructor <;> omega

theorem claim_C3_witness :
    (0 ≤ doseA.reminder.correction_amount ∧
      doseA.timestamp + doseA.reminder.period - doseA.reminder.correction_amount ≤ 30000000000 ∧
      doseA.get_target 30000000000 = some doseTgtA) ∧
    |doseTgtA.timestamp - (doseA.timestamp + doseA.reminder.period)| ≤
      doseA.reminder.correction_amount :=
  ⟨⟨by decide, by decide, by decide⟩,
    claim_C3 doseA 30000000000 (by decide) (by decide) doseTgtA (by decide)⟩

/-- Claim C4: the projected timestamp of `get_target` never precedes
`min(d.timestamp + period, now)`. -/
theorem claim_C4 (d : Dose) (now : ℤ) (tgt : Dose) (h : d.get_target now = some tgt) :
    min (d.timestamp + d.reminder.period) now ≤ tgt.timestamp := by
  unfold Dose.get_target at h
  dsimp only at h
  obtain ⟨-, hts, -, -, -⟩ := mkDose_eq _ _ _ _ h
  rw [hts]
  omega

theorem claim_C4_witness :
    doseA.get_target 30000000000 = some doseTgtA ∧
    min (doseA.timestamp + doseA.reminder.period) 30000000000 ≤ doseTgtA.timestamp :=
  ⟨by decide, claim_C4 doseA 30000000000 doseTgtA (by decide)⟩

/-- Claim C6 (amended): when `cyclesPerDay ≥ 1` *and the computed period is at
least one microsecond* (true for every `cyclesPerDay < 2·86400000000`), the
stepping search of `_get_cycle` and both stepping loops of `get_taken`
terminate within the stated fuel for every input. -/
theorem claim_C6 (r : Reminder) (hn : 1 ≤ r.cycles_per_day) (hp : 1 ≤ r.period)
    (t now next_center : ℤ) (d : Dose) (hd : d.reminder = r) :
    (get_cycle r t).isSome = true ∧
    (takenDownAux r now (takenDownFuel r now next_center) next_center).isSome = true ∧
    (takenUpAux r now (takenUpFuel r now next_center) next_center).isSome = true ∧
    (d.get_taken now).isSome = true := by
  refine ⟨?_, ?_, ?_, ?_⟩
  · obtain ⟨out, h⟩ := get_cycle_isSome r t hp
    rw [h]; rfl
  · obtain ⟨out, h⟩ := takenDownAux_sufficient r now hp
      (takenDownFuel r now next_center) next_center (Nat.le_refl _)
    rw [h]; rfl
  · obtain ⟨out, h⟩ := takenUpAux_sufficient r now hp
      (takenUpFuel r now next_center) next_center (Nat.le_refl _)
    rw [h]; rfl
  · obtain ⟨dT, h, -, -⟩ := get_taken_isSome d now (by rw [hd]; exact hp)
    rw [h]; rfl

theorem claim_C6_witness :
    (1 ≤ rA.cycles_per_day ∧ 1 ≤ rA.period ∧ doseA.reminder = rA) ∧
    ((get_cycle rA 0).isSome = true ∧
     (takenDownAux rA 0 (takenDownFuel rA 0 0) 0).isSome = true ∧
     (takenUpAux rA 0 (takenUpFuel rA 0 0) 0).isSome = true ∧
     (doseA.get_taken 0).isSome = true) :=
  ⟨⟨by decide, by decide, by decide⟩, claim_C6 rA (by decide) (by decide) 0 0 0 doseA (by decide)⟩

/-- The cycle search of `_get_cycle` never returns, whatever the fuel. -/
def get_cycle_diverges (r : Reminder) (t : ℤ) : Prop :=
  ∀ fuel : ℕ, getCycleAux r t fuel (r.cycles_per_day - 1) (combineBed r t) = none

/-- With a zero period the candidate never moves, so the search runs forever. -/
theorem rBadC6_loop : ∀ (fuel : ℕ) (cycle : ℤ), getCycleAux rBadC6 1 fuel cycle 0 = none := by
  intro fuel
  induction fuel with
  | zero => intro _; rfl
  | succ f ih =>
    intro cycle
    rw [getCycleAux, if_neg (by decide), if_pos (by decide)]
    rw [show (0:ℤ) + rBadC6.period = 0 from by decide]
    exact ih _

/-- Claim C6 counterexample: `cycles_per_day = 172800000000 ≥ 1`, yet the
computed period is 0 microseconds and `_get_cycle` diverges on timestamp 1 —
termination does not follow from `cyclesPerDay ≥ 1` alone. -/
theorem claim_C6_counterexample :
    1 ≤ rBadC6.cycles_per_day ∧ rBadC6.period = 0 ∧ get_cycle_diverges rBadC6 1 :=
  ⟨by decide, by decide, fun fuel => by
    rw [show combineBed rBadC6 1 = 0 from by decide]
    exact rBadC6_loop fuel _⟩

/-- Claim C1 (amended): for every Dose and every `now`, the re-resolved
`closest_center` of `get_taken` lies within
`correctionLimit + period + period/2` of `now`; the original bound
`correctionLimit + period` holds additionally whenever the period divides the
day exactly (no microsecond rounding, i.e. `cycles_per_day * period = 24h`). -/
theorem claim_C1 (r : Reminder) (hn : 1 ≤ r.cycles_per_day) (hc : 0 ≤ r.correction_amount)
    (hp : 1 ≤ r.period) (ts ctr now : ℤ) (d dT : Dose)
    (hd : mkDose r ts ctr = some d) (ht : d.get_taken now = some dT) :
    |dT.closest_center - now| ≤ r.correction_amount + r.period + r.half_period ∧
    (r.cycles_per_day * r.period = usPerDay → 2 ≤ r.period →
      |dT.closest_center - now| ≤ r.correction_amount + r.period) := by
  obtain ⟨hr, -, -, -, hcyc⟩ := mkDose_eq _ _ _ _ hd
  unfold Dose.get_taken at ht
  dsimp only at ht
  rw [hr] at ht
  by_cases hb : now < d.closest_center + r.period
  · rw [if_pos hb] at ht
    cases hres : takenDownAux r now
        (takenDownFuel r now (d.closest_center + r.period)) (d.closest_center + r.period) with
    | none => rw [hres] at ht; simp at ht
    | some c =>
      rw [hres, Option.some_bind] at ht
      obtain ⟨hexit, hstart, k, hk⟩ := takenDownAux_spec r now _ _ _ hres
      obtain ⟨-, -, -, -, hcycT⟩ := mkDose_eq _ _ _ _ ht
      obtain ⟨habs, -, -⟩ := get_cycle_spec r c _ _ hcycT
      have hcb : now - r.correction_amount - r.period ≤ c ∧
          c ≤ now + r.correction_amount + r.period := by
        constructor
        · rcases hstart with h | h <;> omega
        · omega
      constructor
      · rw [abs_le] at habs ⊢
        omega
      · intro hdiv hp2
        obtain ⟨m1, hm1⟩ := get_cycle_center_grid r ctr _ _ hcyc
        obtain ⟨m2, hm2⟩ := combineBed_grid r hdiv ctr c
        have hgc : ∃ m : ℤ, c - combineBed r c = m * r.period :=
          ⟨m1 + m2 * r.cycles_per_day - k + 1, by linear_combination hm1 + hm2 - hk⟩
        obtain ⟨cy2, hfix⟩ := get_cycle_fixed r hp2 c hgc
        rw [hfix] at hcycT
        have hccEq : dT.closest_center = c := ((Prod.ext_iff.mp (Option.some.inj hcycT)).2).symm
        rw [hccEq, abs_le]
        omega
  · rw [if_neg hb] at ht
    cases hres : takenUpAux r now
        (takenUpFuel r now (d.closest_center + r.period)) (d.closest_center + r.period) with
    | none => rw [hres] at ht; simp at ht
    | some c =>
      rw [hres, Option.some_bind] at ht
      obtain ⟨hexit, hstart, k, hk⟩ := takenUpAux_spec r now _ _ _ hres
      obtain ⟨-, -, -, -, hcycT⟩ := mkDose_eq _ _ _ _ ht
      obtain ⟨habs, -, -⟩ := get_cycle_spec r c _ _ hcycT
      have hcb : now - r.correction_amount - r.period ≤ c ∧
          c ≤ now + r.correction_amount + r.period := by
        constructor
        · omega
        · rcases hstart with h | h <;> omega
      constructor
      · rw [abs_le] at habs ⊢
        omega
      · intro hdiv hp2
        obtain ⟨m1, hm1⟩ := get_cycle_center_grid r ctr _ _ hcyc
        obtain ⟨m2, hm2⟩ := combineBed_grid r hdiv ctr c
        have hgc : ∃ m : ℤ, c - combineBed r c = m * r.period :=
          ⟨m1 + m2 * r.cycles_per_day + k + 1, by linear_combination hm1 + hm2 + hk⟩
        obtain ⟨cy2, hfix⟩ := get_cycle_fixed r hp2 c hgc
        rw [hfix] at hcycT
        have hccEq : dT.closest_center = c := ((Prod.ext_iff.mp (Option.some.inj hcycT)).2).symm
        rw [hccEq, abs_le]
        omega

theorem claim_C1_witness :
    (1 ≤ rA.cycles_per_day ∧ 0 ≤ rA.correction_amount ∧ 1 ≤ rA.period ∧
      mkDose rA 0 0 = some doseA ∧ doseA.get_taken 10000000000 = some doseTknA) ∧
    (|doseTknA.closest_center - 10000000000| ≤
        rA.correction_amount + rA.period + rA.half_period ∧
      (rA.cycles_per_day * rA.period = usPerDay → 2 ≤ rA.period →
        |doseTknA.closest_center - 10000000000| ≤ rA.correction_amount + rA.period)) :=
  ⟨⟨by decide, by decide, by decide, by decide, by decide⟩,
    claim_C1 rA (by decide) (by decide) (by decide) 0 0 10000000000 doseA doseTknA
      (by decide) (by decide)⟩

/-- Claim C1 counterexample: with 7 cycles per day (rounded period
12342857143 µs, so 7 periods overshoot the day by 1 µs), `correctionLimit = 0`
and a report at `8·period`, the recorded dose's re-resolved `closest_center`
is `86400000000`, a full `period + 1 µs` away from `now = 98742857144` —
strictly more than `correctionLimit + period`. -/
theorem claim_C1_counterexample :
    mkDose r7 0 0 = some doseCe1 ∧
    doseCe1.get_taken 98742857144 = some doseCe1T ∧
    r7.correction_amount + r7.period < |doseCe1T.closest_center - 98742857144| := by
  refine ⟨by decide, by decide, by decide⟩

/-- Claim C5 (amended): re-resolving a returned `closestCenter` is the
identity — `resolve(config, resolve(config, t).closestCenter) =
resolve(config, t)` — *provided* the period divides the day exactly
(`cycles_per_day * period = 24h` in microseconds) and is at least 2 µs. -/
theorem claim_C5 (r : Reminder) (hdiv : r.cycles_per_day * r.period = usPerDay)
    (hp2 : 2 ≤ r.period) (t cy cc : ℤ) (h : get_cycle r t = some (cy, cc)) :
    get_cycle r cc = some (cy, cc) := by
  have hn : 0 < r.cycles_per_day := by
    by_contra hn
    push_neg at hn
    have hnp : r.cycles_per_day * r.period ≤ 0 * r.period :=
      mul_le_mul_of_nonneg_right hn (by omega)
    rw [zero_mul, hdiv] at hnp
    norm_num [usPerDay] at hnp
  obtain ⟨habs1, ⟨j1, hj1⟩, hrange1⟩ := getCycleAux_spec r t _ _ _ _ _ h
  obtain ⟨m2, hm2⟩ := combineBed_grid r hdiv t cc
  have hgc : ∃ m : ℤ, cc - combineBed r cc = m * r.period :=
    ⟨cy - (r.cycles_per_day - 1) + j1 * r.cycles_per_day + m2 * r.cycles_per_day,
      by linear_combination hj1 + hm2⟩
  obtain ⟨cy2, hfix⟩ := get_cycle_fixed r hp2 cc hgc
  obtain ⟨habs2, ⟨j2, hj2⟩, hrange2⟩ := getCycleAux_spec r cc _ _ _ _ _ hfix
  have hK : cy - cy2 = (j2 - j1 - m2) * r.cycles_per_day :=
    mul_right_cancel₀ (show r.period ≠ 0 by omega) (by linear_combination hj2 - hj1 - hm2)
  have hcy1 := hrange1 hn (by omega) (by omega)
  have hcy2 := hrange2 hn (by omega) (by omega)
  have hK0 : j2 - j1 - m2 = 0 := by
    by_contra hK0
    have h1 := Int.one_le_abs hK0
    have hge : r.cycles_per_day ≤ |j2 - j1 - m2| * r.cycles_per_day :=
      le_mul_of_one_le_left (by omega) h1
    have habs : |cy - cy2| = |j2 - j1 - m2| * r.cycles_per_day := by
      rw [hK, abs_mul, abs_of_pos hn]
    have hlt : |cy - cy2| < r.cycles_per_day := abs_lt.mpr ⟨by omega, by omega⟩
    rw [habs] at hlt
    linarith
  have hcyEq : cy2 = cy := by
    rw [hK0, zero_mul] at hK
    omega
  rw [hcyEq] at hfix
  exact hfix

theorem claim_C5_witness :
    (rA.cycles_per_day * rA.period = usPerDay ∧ 2 ≤ rA.period ∧
      get_cycle rA 0 = some (2, -7200000000)) ∧
    get_cycle rA (-7200000000) = some (2, -7200000000) :=
  ⟨⟨by decide, by decide, by decide⟩,
    claim_C5 rA (by decide) (by decide) 0 2 (-7200000000) (by decide)⟩

/-- Claim C5 counterexample: with 7 cycles per day (rounded period), the
timestamp `172799999999` resolves to center `172800000001`, but that center
itself re-resolves to `172800000000` — a center does *not* resolve to itself
for every config. -/
theorem claim_C5_counterexample :
    get_cycle r7 172799999999 = some (6, 172800000001) ∧
    get_cycle r7 172800000001 = some (6, 172800000000) ∧
    ((6:ℤ), (172800000001:ℤ)) ≠ ((6:ℤ), (172800000000:ℤ)) := by
  refine ⟨by decide, by decide, by decide⟩

/-- Claim C7 (amended): with no history, `_dose_last` synthesizes a dose on
the anchor grid of `now`'s calendar day (anchor time-of-day plus whole
periods), at the most recent slot *strictly before* `now` (within one period),
whose timestamp equals its center, so its drift `late` is exactly zero. -/
theorem claim_C7 (r : Reminder) (hp : 1 ≤ r.period) (now : ℤ) :
    ∃ d, dose_last r [] now = some d ∧ d.center = d.timestamp ∧ d.late = 0 ∧
      (∃ k : ℤ, d.timestamp = combineBed r now + k * r.period) ∧
      now - r.period ≤ d.timestamp ∧ d.timestamp < now := by
  obtain ⟨d, hd, -, h1, h2, h3, h4, h5⟩ := dose_last_boot_spec r now hp
  exact ⟨d, hd, h1, h2, h3, h4, h5⟩

theorem claim_C7_witness :
    (1 ≤ rA.period) ∧
    ∃ d, dose_last rA [] 30000000000 = some d ∧ d.center = d.timestamp ∧ d.late = 0 ∧
      (∃ k : ℤ, d.timestamp = combineBed rA 30000000000 + k * rA.period) ∧
      30000000000 - rA.period ≤ d.timestamp ∧ d.timestamp < 30000000000 :=
  ⟨by decide, claim_C7 rA (by decide) 30000000000⟩

/-- Claim C7 counterexample: at `now = 86400000000` (an anchor slot itself,
with `cycles_per_day = 1`, anchor midnight), the most recent anchor slot *not
after* `now` is `86400000000`, yet the bootstrap dose is anchored at
timestamp 0 — the code always picks the slot strictly before `now`. -/
theorem claim_C7_counterexample :
    dose_last r1 [] 86400000000 = some doseCe7 ∧
    combineBed r1 86400000000 + 0 * r1.period = 86400000000 ∧
    doseCe7.timestamp ≠ 86400000000 := by
  refine ⟨by decide, by decide, by decide⟩

/-- The claim's description of the gap list: consecutive timestamp
differences of an (oldest-to-newest) list of instants. -/
def consecutive_gaps (ts : List ℤ) : List ℤ :=
  (ts.zip ts.tail).map fun ab => ab.2 - ab.1

/-- With a positive period every record of a history tail yields a dose, with
its recorded timestamp. -/
theorem mapM_mkDose (r : Reminder) (hp : 1 ≤ r.period) :
    ∀ l : List (ℤ × ℤ), ∃ ds : List Dose,
      (l.mapM fun h => mkDose r h.1 h.2) = some ds ∧
      ds.map Dose.timestamp = l.map Prod.fst := by
  intro l
  induction l with
  | nil => exact ⟨[], rfl, rfl⟩
  | cons a l ih =>
    obtain ⟨ds, hds, hmap⟩ := ih
    obtain ⟨d, hd⟩ := mkDose_isSome r a.1 a.2 hp
    refine ⟨d :: ds, ?_, ?_⟩
    · rw [List.mapM_cons, hd, hds]
      rfl
    · simp only [List.map_cons, hmap]
      rw [(mkDose_eq _ _ _ _ hd).2.1]

/-- The `zip`-with-`tail` form of the gap computation agrees with
`consecutive_gaps` on the timestamps. -/
theorem zip_gaps_eq (ds : List Dose) :
    ((ds.zip ds.tail).map fun ab => ab.2.timestamp - ab.1.timestamp) =
      consecutive_gaps (ds.map Dose.timestamp) := by
  unfold consecutive_gaps
  rw [← List.map_tail, List.zip_map, List.map_map]
  rfl

/-- Claim C8 (amended): the gap sequence of the ping response is the list of
consecutive-timestamp differences over the most recent records — computed
oldest-to-newest by `_dose_tail` but *presented newest-to-oldest* (the
response reverses it). -/
theorem claim_C8 (r : Reminder) (hp : 1 ≤ r.period) (tail : List (ℤ × ℤ)) :
    ping_gaps r tail = some ((consecutive_gaps ((tail.reverse).map Prod.fst)).reverse) := by
  unfold ping_gaps dose_tail
  obtain ⟨ds, hds, hmap⟩ := mapM_mkDose r hp tail.reverse
  rw [hds]
  simp only [Option.map_some']
  congr 1
  rw [← hmap, ← zip_gaps_eq, List.map_reverse, List.map_map]
  rfl

theorem claim_C8_witness :
    (1 ≤ r1.period) ∧
    ping_gaps r1 [(345600000000, 345600000000), (86400000000, 86400000000), (0, 0)] =
      some ((consecutive_gaps
        (([(345600000000, 345600000000), (86400000000, 86400000000),
            ((0:ℤ), (0:ℤ))].reverse).map Prod.fst)).reverse) :=
  ⟨by decide, claim_C8 r1 (by decide) _⟩

/-- Claim C8 counterexample: with records at timestamps 0, 1 day, 4 days
(newest first in the tail), the oldest-to-newest gap list is
`[1 day, 3 days]`, but the ping response presents `[3 days, 1 day]` —
newest-to-oldest, not oldest-to-newest. -/
theorem claim_C8_counterexample :
    ping_gaps r1 [(345600000000, 345600000000), (86400000000, 86400000000), (0, 0)] =
      some [259200000000, 86400000000] ∧
    consecutive_gaps [0, 86400000000, 345600000000] = [86400000000, 259200000000] ∧
    some [(259200000000:ℤ), 86400000000] ≠ some [(86400000000:ℤ), 259200000000] := by
  refine ⟨by decide, by decide, by decide⟩

/-- The rejection/acceptance behavior of the body of `HistoryResource.post`
once the report instant is fixed: rejected exactly when the instant precedes
the last dose's timestamp, and an accepted report is recorded at exactly the
reported instant. -/
theorem historyPostGo_spec (r : Reminder) (hp : 1 ≤ r.period) (tail : List (ℤ × ℤ))
    (time_ : ℤ) :
    ∃ res, historyPostGo r tail time_ = some res ∧
      ((∃ s, res = PostResult.rejected s) ↔
        ∃ dl, dose_last r tail time_ = some dl ∧ time_ < dl.timestamp) ∧
      (∀ ts c flag, res = PostResult.accepted ts c flag → ts = time_) := by
  obtain ⟨dl, hdl, hdlr⟩ := dose_last_isSome r tail time_ hp
  unfold historyPostGo
  rw [hdl, Option.some_bind]
  by_cases hlt : time_ < dl.timestamp
  · rw [if_pos hlt]
    refine ⟨_, rfl, ?_, ?_⟩
    · constructor
      · intro _
        exact ⟨dl, rfl, hlt⟩
      · intro _
        exact ⟨_, rfl⟩
    · intro ts c flag h
      simp at h
  · rw [if_neg hlt]
    obtain ⟨dT, hdT, hts, -⟩ := get_taken_isSome dl time_ (by rw [hdlr]; exact hp)
    rw [hdT]
    simp only [Option.map_some']
    refine ⟨_, rfl, ?_, ?_⟩
    · constructor
      · intro ⟨s, hs⟩
        simp at hs
      · intro ⟨dl', hdl', hlt'⟩
        obtain rfl := Option.some.inj hdl'
        exact absurd hlt' hlt
    · intro ts c flag h
      injection h with h1 h2 h3
      rw [← h1]
      exact hts

/-- Claim C9: the report-dose-taken operation rejects exactly when the
explicit report instant is in the future relative to `now`, or is earlier than
the last dose's timestamp (newest record, or the synthesized bootstrap when no
history exists); the instant defaults to `now` when not supplied, a rejected
request records nothing, and an accepted report is stored at exactly the
reported instant — never clamped. -/
theorem claim_C9 (r : Reminder) (hc : 0 ≤ r.correction_amount) (hp : 1 ≤ r.period)
    (tail : List (ℤ × ℤ)) (now : ℤ) (time_utc : Option ℤ) :
    ∃ res, history_post r tail now time_utc = some res ∧
      ((∃ s, res = PostResult.rejected s) ↔
        ((∃ t, time_utc = some t ∧ now < t) ∨
          (∃ dl, dose_last r tail (time_utc.getD now) = some dl ∧
            time_utc.getD now < dl.timestamp))) ∧
      (∀ ts c flag, res = PostResult.accepted ts c flag → ts = time_utc.getD now) := by
  unfold history_post
  cases time_utc with
  | none =>
    simp only [Option.getD_none]
    obtain ⟨res, hres, hiff, hacc⟩ := historyPostGo_spec r hp tail now
    refine ⟨res, hres, ?_, hacc⟩
    rw [hiff]
    constructor
    · intro h
      exact Or.inr h
    · rintro (⟨t, ht, -⟩ | h)
      · exact Option.noConfusion ht
      · exact h
  | some t =>
    simp only [Option.getD_some]
    by_cases hfut : now < t
    · rw [if_pos hfut]
      refine ⟨_, rfl, ?_, ?_⟩
      · constructor
        · intro _
          exact Or.inl ⟨t, rfl, hfut⟩
        · intro _
          exact ⟨_, rfl⟩
      · intro ts c flag h
        simp at h
    · rw [if_neg hfut]
      obtain ⟨res, hres, hiff, hacc⟩ := historyPostGo_spec r hp tail t
      refine ⟨res, hres, ?_, hacc⟩
      rw [hiff]
      constructor
      · intro h
        exact Or.inr h
      · rintro (⟨t', ht', hlt'⟩ | h)
        · obtain rfl := Option.some.inj ht'
          exact absurd hlt' hfut
        · exact h

theorem claim_C9_witness :
    (0 ≤ rA.correction_amount ∧ 1 ≤ rA.period) ∧
    ∃ res, history_post rA [] 30000000000 none = some res ∧
      ((∃ s, res = PostResult.rejected s) ↔
        ((∃ t, (none : Option ℤ) = some t ∧ 30000000000 < t) ∨
          (∃ dl, dose_last rA [] ((none : Option ℤ).getD 30000000000) = some dl ∧
            (none : Option ℤ).getD 30000000000 < dl.timestamp))) ∧
      (∀ ts c flag, res = PostResult.accepted ts c flag →
        ts = (none : Option ℤ).getD 30000000000) :=
  ⟨⟨by decide, by decide⟩, claim_C9 rA (by decide) (by decide) [] 30000000000 none⟩

/-- Existence-only form of `mkDoseTz_some`, for use where the inputs are
best inferred from the goal. -/
theorem mkDoseTz_exists (r : Reminder) (hp : 1 ≤ r.period) (a b : DtTz)
    (ha : a.tz = Tzinfo.utc) (hb : b.tz = Tzinfo.utc) :
    ∃ d, mkDoseTz r a b = some d ∧ d.tzOk := by
  unfold mkDoseTz
  rw [if_pos ⟨ha, hb⟩]
  obtain ⟨⟨cy, cc⟩, h⟩ := get_cycle_isSome r b.val hp
  unfold get_cycle_tz
  rw [h]
  exact ⟨_, rfl, ⟨ha, hb, rfl⟩⟩

/-- Construction of a timezone-tracked dose succeeds on UTC-aware inputs and
yields UTC-aware fields. -/
theorem mkDoseTz_some (r : Reminder) (hp : 1 ≤ r.period) (a b : DtTz)
    (ha : a.tz = Tzinfo.utc) (hb : b.tz = Tzinfo.utc) :
    ∃ d, mkDoseTz r a b = some d ∧ d.tzOk ∧ d.reminder = r ∧ d.timestamp = a ∧
      d.center = b := by
  unfold mkDoseTz
  rw [if_pos ⟨ha, hb⟩]
  obtain ⟨⟨cy, cc⟩, h⟩ := get_cycle_isSome r b.val hp
  unfold get_cycle_tz
  rw [h]
  exact ⟨_, rfl, ⟨ha, hb, rfl⟩, rfl, rfl, rfl⟩

/-- `get_target` preserves UTC-awareness (and its assertions pass). -/
theorem get_target_tz_some (d : DoseTz) (now : DtTz) (hp : 1 ≤ d.reminder.period)
    (hd : d.tzOk) (hnow : now.tz = Tzinfo.utc) :
    ∃ d2, get_target_tz d now = some d2 ∧ d2.tzOk := by
  obtain ⟨h1, h2, h3⟩ := hd
  unfold get_target_tz
  dsimp only
  rw [if_pos ⟨h1, hnow⟩]
  split_ifs <;>
    exact mkDoseTz_exists d.reminder hp _ _ (by first | exact h1 | exact hnow) (by exact h3)

/-- `get_taken` preserves UTC-awareness. -/
theorem get_taken_tz_some (d : DoseTz) (now : DtTz) (hp : 1 ≤ d.reminder.period)
    (hd : d.tzOk) (hnow : now.tz = Tzinfo.utc) :
    ∃ d3, get_taken_tz d now = some d3 ∧ d3.tzOk := by
  obtain ⟨h1, h2, h3⟩ := hd
  unfold get_taken_tz
  dsimp only
  by_cases hb : now.val < d.closest_center.val + d.reminder.period
  · rw [if_pos hb]
    obtain ⟨c, hc⟩ := takenDownAux_sufficient d.reminder now.val hp
      (takenDownFuel d.reminder now.val (d.closest_center.val + d.reminder.period))
      (d.closest_center.val + d.reminder.period) (Nat.le_refl _)
    rw [hc, Option.some_bind]
    obtain ⟨d3, hd3, hok, -, -, -⟩ := mkDoseTz_some d.reminder hp now ⟨c, d.closest_center.tz⟩
      hnow h3
    exact ⟨d3, hd3, hok⟩
  · rw [if_neg hb]
    obtain ⟨c, hc⟩ := takenUpAux_sufficient d.reminder now.val hp
      (takenUpFuel d.reminder now.val (d.closest_center.val + d.reminder.period))
      (d.closest_center.val + d.reminder.period) (Nat.le_refl _)
    rw [hc, Option.some_bind]
    obtain ⟨d3, hd3, hok, -, -, -⟩ := mkDoseTz_some d.reminder hp now ⟨c, d.closest_center.tz⟩
      hnow h3
    exact ⟨d3, hd3, hok⟩

/-- The bootstrap dose of `_dose_last` carries UTC-aware fields. -/
theorem dose_last_boot_tz_some (r : Reminder) (now : DtTz) (hp : 1 ≤ r.period) :
    ∃ d4, dose_last_boot_tz r now = some d4 ∧ d4.tzOk := by
  unfold dose_last_boot_tz
  dsimp only
  obtain ⟨ts1, h1⟩ := bootUpAux_sufficient r now.val hp
    (bootUpFuel r now.val (combineBed r now.val)) (combineBed r now.val) (Nat.le_refl _)
  rw [h1, Option.some_bind]
  obtain ⟨ts2, h2⟩ := bootDownAux_sufficient r now.val hp
    (bootDownFuel r now.val ts1) ts1 (Nat.le_refl _)
  rw [h2, Option.some_bind]
  obtain ⟨d4, hd4, hok, -, -, -⟩ := mkDoseTz_some r hp ⟨ts2, Tzinfo.utc⟩ ⟨ts2, Tzinfo.utc⟩ rfl rfl
  exact ⟨d4, hd4, hok⟩

/-- Claim C10: on UTC-aware inputs (and a positive period so the cycle search
terminates), `Dose` construction and every engine-produced `Dose` —
`get_target`, `get_taken`, the `_dose_last` bootstrap — satisfy all the
`tzinfo == utc` assertions and again carry UTC-aware timestamp, center and
closest center: the assertion-failure branches are unreachable. -/
theorem claim_C10 (r : Reminder) (hp : 1 ≤ r.period) (ts c now : DtTz)
    (hts : ts.tz = Tzinfo.utc) (hc : c.tz = Tzinfo.utc) (hnow : now.tz = Tzinfo.utc) :
    ∃ d, mkDoseTz r ts c = some d ∧ d.tzOk ∧
      (∃ d2, get_target_tz d now = some d2 ∧ d2.tzOk) ∧
      (∃ d3, get_taken_tz d now = some d3 ∧ d3.tzOk) ∧
      (∃ d4, dose_last_boot_tz r now = some d4 ∧ d4.tzOk) := by
  obtain ⟨d, hd, hok, hr, -, -⟩ := mkDoseTz_some r hp ts c hts hc
  refine ⟨d, hd, hok, ?_, ?_, dose_last_boot_tz_some r now hp⟩
  · exact get_target_tz_some d now (by rw [hr]; exact hp) hok hnow
  · exact get_taken_tz_some d now (by rw [hr]; exact hp) hok hnow

theorem claim_C10_witness :
    (1 ≤ rA.period ∧ (now_tz 0).tz = Tzinfo.utc ∧ (now_tz 30000000000).tz = Tzinfo.utc) ∧
    ∃ d, mkDoseTz rA (now_tz 0) (now_tz 0) = some d ∧ d.tzOk ∧
      (∃ d2, get_target_tz d (now_tz 30000000000) = some d2 ∧ d2.tzOk) ∧
      (∃ d3, get_taken_tz d (now_tz 30000000000) = some d3 ∧ d3.tzOk) ∧
      (∃ d4, dose_last_boot_tz rA (now_tz 30000000000) = some d4 ∧ d4.tzOk) :=
  ⟨⟨by decide, rfl, rfl⟩,
    claim_C10 rA (by decide) (now_tz 0) (now_tz 0) (now_tz 30000000000) rfl rfl rfl⟩

end Evelyn
